import Mathlib

/-!
Verification of the triangle post-processing core of tess.py.

The source is a Python program that flattens GLU tessellation primitives
(FAN / STRIP / LIST) into independent triangles, classifies each triangle
edge as boundary or internal using per-path index spans, fixes the winding
order by the sign of the cross product, and filters degenerate triangles.

Modelling conventions:
* Python ints are modelled as Int (unbounded, signed).
* Python floats are modelled as Rat; the literal 0.0001 becomes 1/10000.
  Comparison structure (strict vs non-strict) is preserved exactly.
* CPython compares small integers with object identity in a few places
  (the operator spelled i-s in is_adjacent); on the values this program
  passes around that coincides with value equality, which is how it is
  modelled here.
* Code that raises an exception (pop from an empty list, list index out
  of range) is modelled with Option: none is the raised exception.
-/

namespace Tess

/-- A point as stored by the program: a 3-tuple (x, y, 0) of floats. -/
def Point : Type := ℚ × ℚ × ℚ

instance : DecidableEq Point := by unfold Point; infer_instance

/-- vec(start, end) from tess.py: the 2D vector from start to end
(only the x and y fields are used). -/
def vec (s e : Point) : ℚ × ℚ := (e.1 - s.1, e.2.1 - s.2.1)

/-- cross(a, b) from tess.py: the scalar cross product of two 2D vectors. -/
def cross (a b : ℚ × ℚ) : ℚ := a.1 * b.2 - a.2 * b.1

/-- The inner helper of find_bound_tuple: num >= span[0] and num <= span[1]. -/
def inside (num : ℤ) (spanish : ℤ × ℤ) : Bool := num ≥ spanish.1 && num ≤ spanish.2

/-- find_bound_tuple(a, b, bounds) from tess.py: the first span of the list
containing both a and b, if any. -/
def find_bound_tuple (a b : ℤ) : List (ℤ × ℤ) → Option (ℤ × ℤ)
  | [] => none
  | span :: rest =>
    if inside a span && inside b span then some span else find_bound_tuple a b rest

/-- is_adjacent(a, b, span) from tess.py: true when the index distance is 1,
or when (min, max) is exactly the span's (low, high) pair. -/
def is_adjacent (a b : ℤ) (span : ℤ × ℤ) : Bool :=
  let lower := min a b
  let upper := max a b
  let diff := upper - lower
  if diff = 1 then true
  else if lower = span.1 && upper = span.2 then true
  else false

/-- is_edge(a, b, bounds) from tess.py: look for a span containing both
indices; if none exists the edge is not a boundary edge. -/
def is_edge (a b : ℤ) (bounds : List (ℤ × ℤ)) : Bool :=
  match find_bound_tuple a b bounds with
  | some span => is_adjacent a b span
  | none => false

/-- The inner loop of cb_end for GL_TRIANGLE_FAN: repeatedly pop the next
vertex and emit (c, p1, p2), sliding p1. -/
def fanLoop (c p1 : ℤ) : List ℤ → List (ℤ × ℤ × ℤ)
  | [] => []
  | p2 :: rest => (c, p1, p2) :: fanLoop c p2 rest

/-- cb_end for GL_TRIANGLE_FAN: pops the first two vertices unconditionally
(raising, modelled as none, when fewer than two are present), then runs the
emission loop. -/
def fanFlatten : List ℤ → Option (List (ℤ × ℤ × ℤ))
  | c :: p1 :: rest => some (fanLoop c p1 rest)
  | _ => none

/-- The inner loop of cb_end for GL_TRIANGLE_STRIP: emit (p1, p2, p3) and
slide the window. -/
def stripLoop (p1 p2 : ℤ) : List ℤ → List (ℤ × ℤ × ℤ)
  | [] => []
  | p3 :: rest => (p1, p2, p3) :: stripLoop p2 p3 rest

/-- cb_end for GL_TRIANGLE_STRIP: pops the first two vertices
unconditionally, then runs the emission loop. -/
def stripFlatten : List ℤ → Option (List (ℤ × ℤ × ℤ))
  | p1 :: p2 :: rest => some (stripLoop p1 p2 rest)
  | _ => none

/-- cb_end for GL_TRIANGLES: while the queue is non-empty pop three
vertices; popping from an exhausted queue raises (modelled as none). -/
def listFlatten : List ℤ → Option (List (ℤ × ℤ × ℤ))
  | [] => some []
  | p1 :: p2 :: p3 :: rest => Option.map (fun l => (p1, p2, p3) :: l) (listFlatten rest)
  | _ :: [] => none
  | _ :: _ :: [] => none

/-- A vertex payload seen by the GLU callbacks: either a global index of the
original flattened buffer, or raw coordinates minted by a combine event. -/
inductive Payload where
  | idx : ℤ → Payload
  | coords : ℚ → ℚ → ℚ → Payload
  deriving DecidableEq

/-- Whether a payload lies in the original global index space (the contract
for vertices handed to the tessellation engine). -/
def payloadInIndexSpace : Payload → Bool
  | Payload.idx _ => true
  | Payload.coords _ _ _ => false

/-- cb_combine from tess.py: prints a warning and returns
(c[0], c[1], c[2]) — the engine-suggested coordinates become the payload of
the synthesized vertex. Except.error would be an exception surfaced to the
caller; the code raises none. -/
def cb_combine (c : ℚ × ℚ × ℚ) (_v : List Payload) (_weight : List ℚ) :
    Except String Payload :=
  Except.ok (Payload.coords c.1 c.2.1 c.2.2)

/-- Python list indexing flattened_points[i]: negative indices wrap once,
out-of-range raises (none). -/
def pyGet {α : Type} (l : List α) (i : ℤ) : Option α :=
  let j : ℤ := if i < 0 then (l.length : ℤ) + i else i
  if 0 ≤ j ∧ j < (l.length : ℤ) then l.get? j.toNat else none

/-- A normalized triangle: three vertex indices, three boundary-edge flags
(edge j runs from points j to points (j+1) mod 3), and a degeneracy flag. -/
structure Triangle where
  points : ℤ × ℤ × ℤ
  edges : Bool × Bool × Bool
  degenerate : Bool
  deriving DecidableEq

/-- The cross product of (P1 - P0, P2 - P0) for an index triple looked up in
the flattened point buffer. -/
def crossAt (flat : List Point) (t : ℤ × ℤ × ℤ) : Option ℚ :=
  match pyGet flat t.1, pyGet flat t.2.1, pyGet flat t.2.2 with
  | some P0, some P1, some P2 => some (cross (vec P0 P1) (vec P0 P2))
  | _, _, _ => none

/-- Triangle.__init__ from tess.py: classify the three edges, compute the
cross product of (P1-P0, P2-P0); if its magnitude is below 1e-4 mark the
triangle degenerate, else if negative swap points 0 and 2 and edges 0 and 1.
A point lookup outside the buffer raises (none). -/
def mkTriangle (tri : ℤ × ℤ × ℤ) (bounds : List (ℤ × ℤ)) (flat : List Point) :
    Option Triangle :=
  match pyGet flat tri.1, pyGet flat tri.2.1, pyGet flat tri.2.2 with
  | some P0, some P1, some P2 =>
    let e0 := is_edge tri.1 tri.2.1 bounds
    let e1 := is_edge tri.2.1 tri.2.2 bounds
    let e2 := is_edge tri.2.2 tri.1 bounds
    let v1 := vec P0 P1
    let v2 := vec P0 P2
    let c := cross v1 v2
    if |c| < 1/10000 then
      some { points := tri, edges := (e0, e1, e2), degenerate := true }
    else if c < 0 then
      some { points := (tri.2.2, tri.2.1, tri.1), edges := (e1, e0, e2),
             degenerate := false }
    else
      some { points := tri, edges := (e0, e1, e2), degenerate := false }
  | _, _, _ => none

/-- The post-processing loop of ZoteTess.triangulate: build a Triangle from
each raw triple in order and keep the non-degenerate ones. -/
def triangulatePost (bounds : List (ℤ × ℤ)) (flat : List Point) :
    List (ℤ × ℤ × ℤ) → Option (List Triangle)
  | [] => some []
  | t :: rest =>
    match mkTriangle t bounds flat, triangulatePost bounds flat rest with
    | some T, some out => some (if T.degenerate then out else T :: out)
    | _, _ => none

/-- The recursion inside Shape.make_bound_tuples: running lower bound low,
span for each path is (low, low + len - 1), next low is high + 1. -/
def mbtAux (low : ℤ) : List (List Point) → List (ℤ × ℤ)
  | [] => []
  | path :: rest =>
    let high := low + (path.length : ℤ) - 1
    (low, high) :: mbtAux (high + 1) rest

/-- Shape.make_bound_tuples from tess.py. -/
def make_bound_tuples (paths : List (List Point)) : List (ℤ × ℤ) :=
  mbtAux 0 paths

/-- Shape.flattened_points from tess.py: concatenation of all paths in
order. -/
def flattened_points : List (List Point) → List Point
  | [] => []
  | p :: ps => p ++ flattened_points ps

/-- Modelled from the spec (section 4.3 and claim C1): the boundary
predicate the spec asserts for a pair of global indices against a span
list — index distance exactly 1, or (min, max) equal to some span's
(low, high) pair. Compared against is_edge, the source's classifier. -/
def specBoundary (a b : ℤ) (bounds : List (ℤ × ℤ)) : Prop :=
  |a - b| = 1 ∨ ∃ s ∈ bounds, min a b = s.1 ∧ max a b = s.2

instance (a b : ℤ) (bounds : List (ℤ × ℤ)) : Decidable (specBoundary a b bounds) := by
  unfold specBoundary; infer_instance

/-! ### Helper lemmas about the boundary classifier -/

theorem inside_iff {num : ℤ} {s : ℤ × ℤ} : inside num s = true ↔ s.1 ≤ num ∧ num ≤ s.2 := by
  simp [inside]

theorem find_bound_tuple_spec {a b : ℤ} {bounds : List (ℤ × ℤ)} {s : ℤ × ℤ}
    (h : find_bound_tuple a b bounds = some s) :
    s ∈ bounds ∧ inside a s = true ∧ inside b s = true := by
  induction bounds with
  | nil => simp [find_bound_tuple] at h
  | cons hd tl ih =>
    rw [find_bound_tuple] at h
    by_cases hc : (inside a hd && inside b hd) = true
    · rw [if_pos hc] at h
      obtain ⟨h1, h2⟩ := Bool.and_eq_true_iff.mp hc
      cases h
      exact ⟨List.mem_cons_self _ _, h1, h2⟩
    · rw [if_neg hc] at h
      obtain ⟨hmem, h1, h2⟩ := ih h
      exact ⟨List.mem_cons_of_mem hd hmem, h1, h2⟩

theorem find_bound_tuple_isSome {a b : ℤ} {bounds : List (ℤ × ℤ)} {s : ℤ × ℤ}
    (hmem : s ∈ bounds) (ha : inside a s = true) (hb : inside b s = true) :
    ∃ s2, find_bound_tuple a b bounds = some s2 := by
  induction bounds with
  | nil => simp at hmem
  | cons hd tl ih =>
    rw [find_bound_tuple]
    by_cases hc : (inside a hd && inside b hd) = true
    · exact ⟨hd, if_pos hc⟩
    · rw [if_neg hc]
      rcases List.mem_cons.mp hmem with heq | hmem2
      · subst heq
        exact absurd (Bool.and_eq_true_iff.mpr ⟨ha, hb⟩) hc
      · exact ih hmem2

theorem find_bound_tuple_comm (a b : ℤ) (bounds : List (ℤ × ℤ)) :
    find_bound_tuple a b bounds = find_bound_tuple b a bounds := by
  induction bounds with
  | nil => rfl
  | cons hd tl ih =>
    rw [find_bound_tuple, find_bound_tuple, Bool.and_comm, ih]

theorem is_adjacent_comm (a b : ℤ) (s : ℤ × ℤ) : is_adjacent a b s = is_adjacent b a s := by
  simp [is_adjacent, min_comm, max_comm]

theorem is_adjacent_iff {a b : ℤ} {s : ℤ × ℤ} :
    is_adjacent a b s = true ↔ |a - b| = 1 ∨ (min a b = s.1 ∧ max a b = s.2) := by
  have habs : max a b - min a b = |a - b| := by
    rw [max_sub_min_eq_abs, abs_sub_comm]
  simp only [is_adjacent]
  split_ifs with h1 h2
  · simp only [true_iff]
    left; rw [← habs]; exact h1
  · simp only [true_iff]
    right
    simpa using h2
  · simp only [Bool.false_eq_true, false_iff]
    push_neg
    refine ⟨?_, ?_⟩
    · rw [← habs]; exact h1
    · intro hlo hhi
      exact h2 (by simp [hlo, hhi])

theorem is_edge_eq_true_iff {a b : ℤ} {bounds : List (ℤ × ℤ)} :
    is_edge a b bounds = true ↔
      ∃ s, find_bound_tuple a b bounds = some s ∧ is_adjacent a b s = true := by
  unfold is_edge
  cases h : find_bound_tuple a b bounds with
  | none => simp
  | some s => simp

theorem is_edge_comm (a b : ℤ) (bounds : List (ℤ × ℤ)) :
    is_edge a b bounds = is_edge b a bounds := by
  unfold is_edge
  rw [find_bound_tuple_comm a b]
  cases find_bound_tuple b a bounds with
  | none => rfl
  | some s => exact is_adjacent_comm a b s

/-! ### Helper lemmas about make_bound_tuples -/

theorem mbtAux_length (paths : List (List Point)) :
    ∀ low : ℤ, (mbtAux low paths).length = paths.length := by
  induction paths with
  | nil => intro low; rfl
  | cons p ps ih => intro low; simp [mbtAux, ih]

theorem mbtAux_get_zero (low : ℤ) (p : List Point) (ps : List (List Point)) :
    (mbtAux low (p :: ps)).get? 0 = some (low, low + (p.length : ℤ) - 1) := rfl

theorem mbtAux_get_high (paths : List (List Point)) :
    ∀ (low : ℤ) (k : ℕ) (s : ℤ × ℤ) (path : List Point),
      (mbtAux low paths).get? k = some s → paths.get? k = some path →
      s.2 = s.1 + (path.length : ℤ) - 1 := by
  induction paths with
  | nil => intro low k s path hs _; simp [mbtAux] at hs
  | cons p ps ih =>
    intro low k s path hs hp
    cases k with
    | zero =>
      rw [mbtAux_get_zero] at hs
      rw [List.get?_cons_zero] at hp
      cases hs; cases hp; rfl
    | succ k =>
      rw [mbtAux, List.get?_cons_succ] at hs
      rw [List.get?_cons_succ] at hp
      exact ih _ k s path hs hp

theorem mbtAux_get_succ_low (paths : List (List Point)) :
    ∀ (low : ℤ) (k : ℕ) (s s2 : ℤ × ℤ),
      (mbtAux low paths).get? k = some s → (mbtAux low paths).get? (k + 1) = some s2 →
      s2.1 = s.2 + 1 := by
  induction paths with
  | nil => intro low k s s2 hs _; simp [mbtAux] at hs
  | cons p ps ih =>
    intro low k s s2 hs hs2
    cases k with
    | zero =>
      rw [mbtAux_get_zero] at hs
      cases hs
      rw [mbtAux, List.get?_cons_succ] at hs2
      cases ps with
      | nil => simp [mbtAux] at hs2
      | cons q qs =>
        rw [mbtAux_get_zero] at hs2
        cases hs2; rfl
    | succ k =>
      rw [mbtAux, List.get?_cons_succ] at hs
      rw [mbtAux, List.get?_cons_succ] at hs2
      exact ih _ k s s2 hs hs2

theorem mbtAux_get_low_le (paths : List (List Point)) :
    ∀ (low : ℤ) (k : ℕ) (s : ℤ × ℤ),
      (mbtAux low paths).get? k = some s → low ≤ s.1 := by
  induction paths with
  | nil => intro low k s hs; simp [mbtAux] at hs
  | cons p ps ih =>
    intro low k s hs
    cases k with
    | zero =>
      rw [mbtAux_get_zero] at hs
      cases hs; exact le_refl low
    | succ k =>
      rw [mbtAux, List.get?_cons_succ] at hs
      have := ih _ k s hs
      omega

theorem mbtAux_ordered (paths : List (List Point)) :
    ∀ (low : ℤ) (j k : ℕ) (sj sk : ℤ × ℤ), j < k →
      (mbtAux low paths).get? j = some sj → (mbtAux low paths).get? k = some sk →
      sj.2 < sk.1 := by
  induction paths with
  | nil => intro low j k sj sk _ hj _; simp [mbtAux] at hj
  | cons p ps ih =>
    intro low j k sj sk hjk hj hk
    cases k with
    | zero => omega
    | succ k =>
      rw [mbtAux, List.get?_cons_succ] at hk
      cases j with
      | zero =>
        rw [mbtAux_get_zero] at hj
        cases hj
        have hle := mbtAux_get_low_le ps _ k sk hk
        show low + (p.length : ℤ) - 1 < sk.1
        omega
      | succ j =>
        rw [mbtAux, List.get?_cons_succ] at hj
        exact ih _ j k sj sk (by omega) hj hk

/-- In a span list produced by make_bound_tuples, at most one span contains
any given index. -/
theorem mbt_containing_unique {paths : List (List Point)} {s s2 : ℤ × ℤ} {x : ℤ}
    (hs : s ∈ make_bound_tuples paths) (hs2 : s2 ∈ make_bound_tuples paths)
    (hx : inside x s = true) (hx2 : inside x s2 = true) : s = s2 := by
  obtain ⟨j, hj⟩ := List.mem_iff_get?.mp hs
  obtain ⟨k, hk⟩ := List.mem_iff_get?.mp hs2
  obtain ⟨hx1, hxr⟩ := inside_iff.mp hx
  obtain ⟨hx21, hx2r⟩ := inside_iff.mp hx2
  rcases lt_trichotomy j k with hlt | heq | hgt
  · have := mbtAux_ordered paths 0 j k s s2 hlt hj hk
    omega
  · subst heq
    rw [hj] at hk
    cases hk; rfl
  · have := mbtAux_ordered paths 0 k j s2 s hgt hk hj
    omega

/-- The central characterization of is_edge over spans produced by
make_bound_tuples: an edge is flagged boundary exactly when one span
contains both endpoints and, within it, the indices are at distance 1 or
are exactly the span's (low, high) pair. -/
theorem is_edge_mbt_iff {a b : ℤ} {paths : List (List Point)} :
    is_edge a b (make_bound_tuples paths) = true ↔
      ∃ s ∈ make_bound_tuples paths,
        (s.1 ≤ a ∧ a ≤ s.2 ∧ s.1 ≤ b ∧ b ≤ s.2) ∧
        (|a - b| = 1 ∨ (min a b = s.1 ∧ max a b = s.2)) := by
  constructor
  · intro h
    obtain ⟨s, hfind, hadj⟩ := is_edge_eq_true_iff.mp h
    obtain ⟨hmem, ha, hb⟩ := find_bound_tuple_spec hfind
    obtain ⟨ha1, ha2⟩ := inside_iff.mp ha
    obtain ⟨hb1, hb2⟩ := inside_iff.mp hb
    exact ⟨s, hmem, ⟨ha1, ha2, hb1, hb2⟩, is_adjacent_iff.mp hadj⟩
  · rintro ⟨s, hmem, ⟨ha1, ha2, hb1, hb2⟩, hcond⟩
    have ha : inside a s = true := inside_iff.mpr ⟨ha1, ha2⟩
    have hb : inside b s = true := inside_iff.mpr ⟨hb1, hb2⟩
    obtain ⟨s2, hfind⟩ := find_bound_tuple_isSome hmem ha hb
    obtain ⟨hmem2, ha2i, hb2i⟩ := find_bound_tuple_spec hfind
    have hss : s2 = s := mbt_containing_unique hmem2 hmem ha2i ha
    subst hss
    exact is_edge_eq_true_iff.mpr ⟨s2, hfind, is_adjacent_iff.mpr hcond⟩

/-! ### Helper lemmas about the primitive flatteners -/

theorem fanLoop_length (c : ℤ) (rest : List ℤ) :
    ∀ p1 : ℤ, (fanLoop c p1 rest).length = rest.length := by
  induction rest with
  | nil => intro p1; rfl
  | cons p2 tail ih => intro p1; simp [fanLoop, ih]

theorem fanLoop_get (c : ℤ) (rest : List ℤ) :
    ∀ (p1 : ℤ) (i : ℕ) (t : ℤ × ℤ × ℤ), (fanLoop c p1 rest).get? i = some t →
      ∃ x y, (p1 :: rest).get? i = some x ∧ (p1 :: rest).get? (i + 1) = some y ∧
        t = (c, x, y) := by
  induction rest with
  | nil => intro p1 i t ht; simp [fanLoop] at ht
  | cons p2 tail ih =>
    intro p1 i t ht
    cases i with
    | zero =>
      rw [fanLoop, List.get?_cons_zero] at ht
      cases ht
      exact ⟨p1, p2, rfl, rfl, rfl⟩
    | succ i =>
      rw [fanLoop, List.get?_cons_succ] at ht
      obtain ⟨x, y, hx, hy, hival⟩ := ih p2 i t ht
      exact ⟨x, y, by simpa using hx, by simpa using hy, hival⟩

theorem stripLoop_length (rest : List ℤ) :
    ∀ p1 p2 : ℤ, (stripLoop p1 p2 rest).length = rest.length := by
  induction rest with
  | nil => intro p1 p2; rfl
  | cons p3 tail ih => intro p1 p2; simp [stripLoop, ih]

theorem stripLoop_get (rest : List ℤ) :
    ∀ (p1 p2 : ℤ) (i : ℕ) (t : ℤ × ℤ × ℤ), (stripLoop p1 p2 rest).get? i = some t →
      ∃ x y z, (p1 :: p2 :: rest).get? i = some x ∧
        (p1 :: p2 :: rest).get? (i + 1) = some y ∧
        (p1 :: p2 :: rest).get? (i + 2) = some z ∧ t = (x, y, z) := by
  induction rest with
  | nil => intro p1 p2 i t ht; simp [stripLoop] at ht
  | cons p3 tail ih =>
    intro p1 p2 i t ht
    cases i with
    | zero =>
      rw [stripLoop, List.get?_cons_zero] at ht
      cases ht
      exact ⟨p1, p2, p3, rfl, rfl, rfl, rfl⟩
    | succ i =>
      rw [stripLoop, List.get?_cons_succ] at ht
      obtain ⟨x, y, z, hx, hy, hz, hival⟩ := ih p2 p3 i t ht
      exact ⟨x, y, z, by simpa using hx, by simpa using hy, by simpa using hz, hival⟩

theorem listFlatten_not_dvd {s : List ℤ} (h : ¬ (3 ∣ s.length)) : listFlatten s = none := by
  induction s using listFlatten.induct with
  | case1 => simp at h
  | case2 p1 p2 p3 rest ih =>
    rw [listFlatten]
    have hr : ¬ (3 ∣ rest.length) := by
      simp only [List.length_cons] at h
      omega
    rw [ih hr]
    rfl
  | case3 a => rfl
  | case4 a b => rfl

theorem listFlatten_dvd {s : List ℤ} (h : 3 ∣ s.length) :
    ∃ l, listFlatten s = some l ∧ l.length = s.length / 3 ∧
      ∀ (i : ℕ) (a b c : ℤ), l.get? i = some (a, b, c) →
        s.get? (3 * i) = some a ∧ s.get? (3 * i + 1) = some b ∧
        s.get? (3 * i + 2) = some c := by
  induction s using listFlatten.induct with
  | case1 => exact ⟨[], rfl, rfl, by intro i a b c hi; simp at hi⟩
  | case2 p1 p2 p3 rest ih =>
    have hr : 3 ∣ rest.length := by
      simp only [List.length_cons] at h
      omega
    obtain ⟨l, hl, hlen, hget⟩ := ih hr
    refine ⟨(p1, p2, p3) :: l, by rw [listFlatten, hl]; rfl, by simp only [List.length_cons, hlen]; omega, ?_⟩
    intro i a b c hi
    cases i with
    | zero =>
      rw [List.get?_cons_zero] at hi
      cases hi
      exact ⟨rfl, rfl, rfl⟩
    | succ i =>
      rw [List.get?_cons_succ] at hi
      obtain ⟨ha, hb, hc⟩ := hget i a b c hi
      refine ⟨?_, ?_, ?_⟩
      · have : 3 * (i + 1) = 3 * i + 2 + 1 := by omega
        rw [this]
        simpa using ha
      · have : 3 * (i + 1) + 1 = 3 * i + 2 + 2 := by omega
        rw [this]
        simpa using hb
      · have : 3 * (i + 1) + 2 = 3 * i + 2 + 3 := by omega
        rw [this]
        simpa [List.get?_cons_succ] using hc
  | case3 a =>
    exfalso
    simp only [List.length_cons, List.length_nil] at h
    omega
  | case4 a b =>
    exfalso
    simp only [List.length_cons, List.length_nil] at h
    omega

/-! ### Helper lemmas about the triangle normalizer -/

/-- Swapping vertices 0 and 2 negates the signed cross product. -/
theorem cross_vec_rev (P0 P1 P2 : Point) :
    cross (vec P2 P1) (vec P2 P0) = - cross (vec P0 P1) (vec P0 P2) := by
  simp only [cross, vec]
  ring

theorem crossAt_of_lookups {flat : List Point} {t : ℤ × ℤ × ℤ} {P0 P1 P2 : Point}
    (h0 : pyGet flat t.1 = some P0) (h1 : pyGet flat t.2.1 = some P1)
    (h2 : pyGet flat t.2.2 = some P2) :
    crossAt flat t = some (cross (vec P0 P1) (vec P0 P2)) := by
  unfold crossAt
  rw [h0, h1, h2]

theorem crossAt_inv {flat : List Point} {t : ℤ × ℤ × ℤ} {c : ℚ}
    (h : crossAt flat t = some c) :
    ∃ P0 P1 P2, pyGet flat t.1 = some P0 ∧ pyGet flat t.2.1 = some P1 ∧
      pyGet flat t.2.2 = some P2 ∧ c = cross (vec P0 P1) (vec P0 P2) := by
  unfold crossAt at h
  split at h
  · rename_i P0 P1 P2 h0 h1 h2
    cases h
    exact ⟨P0, P1, P2, h0, h1, h2, rfl⟩
  · exact absurd h (by simp)

theorem mkTriangle_of_lookups {t : ℤ × ℤ × ℤ} {bounds : List (ℤ × ℤ)}
    {flat : List Point} {P0 P1 P2 : Point}
    (h0 : pyGet flat t.1 = some P0) (h1 : pyGet flat t.2.1 = some P1)
    (h2 : pyGet flat t.2.2 = some P2) :
    mkTriangle t bounds flat =
      (if |cross (vec P0 P1) (vec P0 P2)| < 1/10000 then
        some { points := t,
               edges := (is_edge t.1 t.2.1 bounds, is_edge t.2.1 t.2.2 bounds,
                         is_edge t.2.2 t.1 bounds),
               degenerate := true }
      else if cross (vec P0 P1) (vec P0 P2) < 0 then
        some { points := (t.2.2, t.2.1, t.1),
               edges := (is_edge t.2.1 t.2.2 bounds, is_edge t.1 t.2.1 bounds,
                         is_edge t.2.2 t.1 bounds),
               degenerate := false }
      else
        some { points := t,
               edges := (is_edge t.1 t.2.1 bounds, is_edge t.2.1 t.2.2 bounds,
                         is_edge t.2.2 t.1 bounds),
               degenerate := false }) := by
  unfold mkTriangle
  rw [h0, h1, h2]

/-- Every non-degenerate triangle produced by the constructor has a final
cross product of at least the degeneracy threshold. -/
theorem mkTriangle_nondegen_cross {t : ℤ × ℤ × ℤ} {bounds : List (ℤ × ℤ)}
    {flat : List Point} {T : Triangle}
    (h : mkTriangle t bounds flat = some T) (hd : T.degenerate = false) :
    ∃ c, crossAt flat T.points = some c ∧ 1/10000 ≤ c := by
  unfold mkTriangle at h
  split at h
  · rename_i P0 P1 P2 h0 h1 h2
    dsimp only at h
    split_ifs at h with hdeg hneg
    · cases h
      simp at hd
    · cases h
      refine ⟨-(cross (vec P0 P1) (vec P0 P2)), ?_, ?_⟩
      · have := @crossAt_of_lookups flat (t.2.2, t.2.1, t.1) P2 P1 P0 h2 h1 h0
        rw [this, cross_vec_rev]
      · rw [abs_of_neg hneg] at hdeg
        exact not_lt.mp hdeg
    · cases h
      refine ⟨cross (vec P0 P1) (vec P0 P2), crossAt_of_lookups h0 h1 h2, ?_⟩
      rw [abs_of_nonneg (not_lt.mp hneg)] at hdeg
      exact not_lt.mp hdeg
  · exact absurd h (by simp)

/-! ### Claim C1 -/

/-- C1 counterexample: with spans produced from path lengths [4, 3], the
indices 3 and 4 are at distance 1 (so the spec predicate holds), yet the
classifier flags the edge as non-boundary because no span contains both. -/
theorem C1_counterexample :
    specBoundary 3 4 (make_bound_tuples
      [List.replicate 4 (((0:ℚ), 0, 0) : Point), List.replicate 3 (((0:ℚ), 0, 0) : Point)]) ∧
    is_edge 3 4 (make_bound_tuples
      [List.replicate 4 (((0:ℚ), 0, 0) : Point), List.replicate 3 (((0:ℚ), 0, 0) : Point)]) = false := by
  constructor
  · left
    decide
  · decide

/-- C1 (amended): over spans produced by make_bound_tuples, the classifier
flags the edge a-b as boundary iff some span contains both a and b and,
within it, |a - b| = 1 or (min, max) equals the span's (low, high) pair.
A pair at index distance 1 straddling two spans is NOT flagged. -/
theorem C1_boundary_characterization (a b : ℤ) (paths : List (List Point)) :
    is_edge a b (make_bound_tuples paths) = true ↔
      ∃ s ∈ make_bound_tuples paths,
        (s.1 ≤ a ∧ a ≤ s.2 ∧ s.1 ≤ b ∧ b ≤ s.2) ∧
        (|a - b| = 1 ∨ (min a b = s.1 ∧ max a b = s.2)) :=
  is_edge_mbt_iff

/-- C1 witness: a concrete instance of the amended characterization. -/
theorem C1_witness :
    is_edge 0 1 (make_bound_tuples [List.replicate 2 (((0:ℚ), 0, 0) : Point)]) = true :=
  (C1_boundary_characterization 0 1 [List.replicate 2 (((0:ℚ), 0, 0) : Point)]).mpr
    ⟨(0, 1), by decide, by decide, Or.inl (by decide)⟩

/-! ### Claim C2 -/

/-- C2 counterexample: a LIST primitive of length 4 does not drop the
trailing partial group; the loop pops from an exhausted queue and raises
(modelled as none). -/
theorem C2_counterexample : listFlatten [0, 1, 2, 3] = none := rfl

/-- C2 (amended): a LIST of length n emits exactly n / 3 independent
triples, in emission order, when 3 divides n; when it does not, flattening
raises instead of dropping the partial group. -/
theorem C2_list_flattening (s : List ℤ) :
    (3 ∣ s.length → ∃ l, listFlatten s = some l ∧ l.length = s.length / 3 ∧
      ∀ (i : ℕ) (a b c : ℤ), l.get? i = some (a, b, c) →
        s.get? (3 * i) = some a ∧ s.get? (3 * i + 1) = some b ∧
        s.get? (3 * i + 2) = some c) ∧
    (¬ 3 ∣ s.length → listFlatten s = none) :=
  ⟨fun h => listFlatten_dvd h, fun h => listFlatten_not_dvd h⟩

/-- C2 witness: a length-6 LIST yields its two triples, and a length-4 LIST
raises. -/
theorem C2_witness :
    (∃ l, listFlatten [0, 1, 2, 3, 4, 5] = some l ∧ l.length = [0, 1, 2, 3, 4, 5].length / 3 ∧
      ∀ (i : ℕ) (a b c : ℤ), l.get? i = some (a, b, c) →
        [0, 1, 2, 3, 4, 5].get? (3 * i) = some a ∧
        [0, 1, 2, 3, 4, 5].get? (3 * i + 1) = some b ∧
        [0, 1, 2, 3, 4, 5].get? (3 * i + 2) = some c) ∧
    listFlatten [0, 1, 2, 3] = none :=
  ⟨(C2_list_flattening [0, 1, 2, 3, 4, 5]).1 (by decide),
   (C2_list_flattening [0, 1, 2, 3]).2 (by decide)⟩

/-! ### Claim C3 -/

/-- C3 counterexample: a FAN or STRIP with fewer than 2 indices does not
emit zero triangles quietly; the two unconditional pops raise. -/
theorem C3_counterexample :
    fanFlatten ([] : List ℤ) = none ∧ fanFlatten [0] = none ∧
    stripFlatten ([] : List ℤ) = none ∧ stripFlatten [0] = none :=
  ⟨rfl, rfl, rfl, rfl⟩

/-- C3 (amended): a FAN or STRIP of length exactly 2 terminates without
error and emits zero triangles, but lengths 0 and 1 raise (pop from an
empty queue). -/
theorem C3_short_primitives (a b : ℤ) :
    fanFlatten [a, b] = some [] ∧ stripFlatten [a, b] = some [] ∧
    fanFlatten ([] : List ℤ) = none ∧ fanFlatten [a] = none ∧
    stripFlatten ([] : List ℤ) = none ∧ stripFlatten [a] = none :=
  ⟨rfl, rfl, rfl, rfl, rfl, rfl⟩

/-! ### Claim C4 -/

/-- C4 counterexample: on a combine event the adapter does not surface an
error: cb_combine returns Except.ok with the engine's coordinates as the
new payload, which lies outside the global index space. -/
theorem C4_counterexample :
    cb_combine (1, 2, 0) [] [] = Except.ok (Payload.coords 1 2 0) ∧
    (cb_combine (1, 2, 0) [] []).isOk = true ∧
    payloadInIndexSpace (Payload.coords 1 2 0) = false :=
  ⟨rfl, rfl, rfl⟩

/-- C4 (amended): on every combine event the code continues, minting the
engine-suggested coordinates as the payload of the synthesized vertex; that
payload is outside the global index space and no error is raised. -/
theorem C4_combine_continues (c : ℚ × ℚ × ℚ) (v : List Payload) (w : List ℚ) :
    cb_combine c v w = Except.ok (Payload.coords c.1 c.2.1 c.2.2) ∧
    payloadInIndexSpace (Payload.coords c.1 c.2.1 c.2.2) = false :=
  ⟨rfl, rfl⟩

/-! ### Claim C5 -/

/-- C5 counterexample: a triangle whose cross product is exactly 1e-4 is
not filtered (the degeneracy test is a strict less-than), so it appears in
the final output with cross product equal to, not strictly greater than,
the threshold. -/
theorem C5_counterexample :
    triangulatePost
        (make_bound_tuples [[(((0:ℚ), 0, 0) : Point), ((1:ℚ), 0, 0), ((0:ℚ), 1/10000, 0)]])
        (flattened_points [[(((0:ℚ), 0, 0) : Point), ((1:ℚ), 0, 0), ((0:ℚ), 1/10000, 0)]])
        [(0, 1, 2)] =
      some [{ points := (0, 1, 2), edges := (true, true, true), degenerate := false }] ∧
    crossAt (flattened_points [[(((0:ℚ), 0, 0) : Point), ((1:ℚ), 0, 0), ((0:ℚ), 1/10000, 0)]])
        (0, 1, 2) = some (1/10000) ∧
    ¬ ((1:ℚ)/10000 > 1/10000) := by
  refine ⟨?_, ?_, by norm_num⟩
  · simp [triangulatePost, mkTriangle, make_bound_tuples, mbtAux, flattened_points, pyGet,
      vec, cross, is_edge, find_bound_tuple, inside, is_adjacent]
    norm_num [abs_of_pos]
  · simp [crossAt, flattened_points, pyGet, vec, cross]

/-- C5 (amended): every triangle in the final output of triangulate is
non-degenerate and its final-order cross product is at least 1e-4 (the
bound is attained, so the strict inequality of the claim fails only at
exactly 1e-4); no triangle with raw cross-product magnitude below the
threshold appears. -/
theorem C5_output_nondegenerate {bounds : List (ℤ × ℤ)} {flat : List Point}
    {raw : List (ℤ × ℤ × ℤ)} {out : List Triangle}
    (h : triangulatePost bounds flat raw = some out) :
    ∀ T ∈ out, T.degenerate = false ∧ ∃ c, crossAt flat T.points = some c ∧ 1/10000 ≤ c := by
  induction raw generalizing out with
  | nil =>
    cases h
    intro T hT
    simp at hT
  | cons t rest ih =>
    rw [triangulatePost] at h
    cases hmk : mkTriangle t bounds flat with
    | none => rw [hmk] at h; exact absurd h (by simp)
    | some T0 =>
      rw [hmk] at h
      cases hrec : triangulatePost bounds flat rest with
      | none => rw [hrec] at h; exact absurd h (by simp)
      | some out0 =>
        rw [hrec] at h
        cases h
        intro T hT
        by_cases hdeg : T0.degenerate
        · rw [if_pos hdeg] at hT
          exact ih hrec T hT
        · rw [if_neg hdeg] at hT
          rcases List.mem_cons.mp hT with heq | hmem
          · subst heq
            exact ⟨Bool.eq_false_iff.mpr hdeg,
              mkTriangle_nondegen_cross hmk (Bool.eq_false_iff.mpr hdeg)⟩
          · exact ih hrec T hmem

/-- C5 witness: a concrete run whose single output triangle satisfies the
amended bound. -/
theorem C5_witness :
    ({ points := ((0:ℤ), (1:ℤ), (2:ℤ)), edges := (true, true, true),
       degenerate := false } : Triangle).degenerate = false ∧
    ∃ c, crossAt [(((0:ℚ), 0, 0) : Point), ((1:ℚ), 0, 0), ((0:ℚ), 1, 0)]
        ({ points := ((0:ℤ), (1:ℤ), (2:ℤ)), edges := (true, true, true),
           degenerate := false } : Triangle).points = some c ∧ 1/10000 ≤ c := by
  refine @C5_output_nondegenerate [(0, 2)]
    [(((0:ℚ), 0, 0) : Point), ((1:ℚ), 0, 0), ((0:ℚ), 1, 0)] [(0, 1, 2)]
    [{ points := (0, 1, 2), edges := (true, true, true), degenerate := false }]
    ?_ _ ?_
  · simp [triangulatePost, mkTriangle, pyGet, vec, cross, is_edge, find_bound_tuple,
      inside, is_adjacent]
    norm_num
  · simp

/-! ### Claim C6 -/

/-- C6: a raw triple with negative, non-degenerate cross product is emitted
as (t2, t1, t0) with edge flags (e1, e0, e2); consequently every
non-degenerate normalized triangle has each final edge flag equal to the
classification of its final index pair. -/
theorem C6_swap_normalization :
    (∀ (t0 t1 t2 : ℤ) (bounds : List (ℤ × ℤ)) (flat : List Point) (c : ℚ),
      crossAt flat (t0, t1, t2) = some c → c < 0 → ¬ |c| < 1/10000 →
      mkTriangle (t0, t1, t2) bounds flat =
        some { points := (t2, t1, t0),
               edges := (is_edge t1 t2 bounds, is_edge t0 t1 bounds, is_edge t2 t0 bounds),
               degenerate := false }) ∧
    (∀ (t : ℤ × ℤ × ℤ) (bounds : List (ℤ × ℤ)) (flat : List Point) (T : Triangle),
      mkTriangle t bounds flat = some T → T.degenerate = false →
      T.edges.1 = is_edge T.points.1 T.points.2.1 bounds ∧
      T.edges.2.1 = is_edge T.points.2.1 T.points.2.2 bounds ∧
      T.edges.2.2 = is_edge T.points.2.2 T.points.1 bounds) := by
  constructor
  · intro t0 t1 t2 bounds flat c h hneg hnd
    obtain ⟨P0, P1, P2, h0, h1, h2, rfl⟩ := crossAt_inv h
    rw [mkTriangle_of_lookups h0 h1 h2, if_neg hnd, if_pos hneg]
  · intro t bounds flat T h hd
    unfold mkTriangle at h
    split at h
    · rename_i P0 P1 P2 h0 h1 h2
      dsimp only at h
      split_ifs at h with hdeg hneg
      · cases h
        simp at hd
      · cases h
        exact ⟨is_edge_comm t.2.1 t.2.2 bounds, is_edge_comm t.1 t.2.1 bounds,
               is_edge_comm t.2.2 t.1 bounds⟩
      · cases h
        exact ⟨rfl, rfl, rfl⟩
    · exact absurd h (by simp)

/-- C6 witness: a concrete clockwise triangle is swapped as described. -/
theorem C6_witness :
    mkTriangle (0, 1, 2) [(0, 2)] [(((0:ℚ), 0, 0) : Point), ((0:ℚ), 1, 0), ((1:ℚ), 0, 0)] =
      some { points := (2, 1, 0),
             edges := (is_edge 1 2 [(0, 2)], is_edge 0 1 [(0, 2)], is_edge 2 0 [(0, 2)]),
             degenerate := false } :=
  C6_swap_normalization.1 0 1 2 [(0, 2)]
    [(((0:ℚ), 0, 0) : Point), ((0:ℚ), 1, 0), ((1:ℚ), 0, 0)] (-1)
    (by simp [crossAt, pyGet, vec, cross])
    (by norm_num) (by norm_num)

/-! ### Claim C7 -/

/-- C7: a FAN [c, p1, ..., pn] emits exactly the n - 1 triples
(c, p_i, p_(i+1)) and a STRIP [p1, ..., pn] emits exactly the n - 2 triples
(p_i, p_(i+1), p_(i+2)), in emission order; in particular FAN [0,1,2,3,4]
yields (0,1,2), (0,2,3), (0,3,4). -/
theorem C7_fan_strip_expansion :
    (∀ (c p1 : ℤ) (rest : List ℤ), ∃ l, fanFlatten (c :: p1 :: rest) = some l ∧
      l.length = rest.length ∧
      ∀ (i : ℕ) (t : ℤ × ℤ × ℤ), l.get? i = some t →
        ∃ x y, (p1 :: rest).get? i = some x ∧ (p1 :: rest).get? (i + 1) = some y ∧
          t = (c, x, y)) ∧
    (∀ (p1 p2 : ℤ) (rest : List ℤ), ∃ l, stripFlatten (p1 :: p2 :: rest) = some l ∧
      l.length = rest.length ∧
      ∀ (i : ℕ) (t : ℤ × ℤ × ℤ), l.get? i = some t →
        ∃ x y z, (p1 :: p2 :: rest).get? i = some x ∧
          (p1 :: p2 :: rest).get? (i + 1) = some y ∧
          (p1 :: p2 :: rest).get? (i + 2) = some z ∧ t = (x, y, z)) ∧
    fanFlatten [0, 1, 2, 3, 4] = some [(0, 1, 2), (0, 2, 3), (0, 3, 4)] :=
  ⟨fun c p1 rest => ⟨fanLoop c p1 rest, rfl, fanLoop_length c rest p1, fanLoop_get c rest p1⟩,
   fun p1 p2 rest =>
     ⟨stripLoop p1 p2 rest, rfl, stripLoop_length rest p1 p2, stripLoop_get rest p1 p2⟩,
   rfl⟩

/-! ### Claim C8 -/

/-- C8: make_bound_tuples yields one span per path in path order with
low_0 = 0, high_k = low_k + len_k - 1 and low_(k+1) = high_k + 1; it never
fails, a zero-path shape gives an empty span list and an empty flattened
buffer, and path lengths [4, 3, 3] give [(0,3), (4,6), (7,9)]. -/
theorem C8_bound_tuples :
    (make_bound_tuples [] = [] ∧ flattened_points [] = []) ∧
    (∀ paths : List (List Point), (make_bound_tuples paths).length = paths.length) ∧
    (∀ (p : List Point) (ps : List (List Point)),
      (make_bound_tuples (p :: ps)).get? 0 = some (0, (p.length : ℤ) - 1)) ∧
    (∀ (paths : List (List Point)) (k : ℕ) (s : ℤ × ℤ) (path : List Point),
      (make_bound_tuples paths).get? k = some s → paths.get? k = some path →
      s.2 = s.1 + (path.length : ℤ) - 1) ∧
    (∀ (paths : List (List Point)) (k : ℕ) (s s2 : ℤ × ℤ),
      (make_bound_tuples paths).get? k = some s →
      (make_bound_tuples paths).get? (k + 1) = some s2 → s2.1 = s.2 + 1) ∧
    make_bound_tuples [List.replicate 4 (((0:ℚ), 0, 0) : Point),
      List.replicate 3 (((0:ℚ), 0, 0) : Point), List.replicate 3 (((0:ℚ), 0, 0) : Point)] =
      [(0, 3), (4, 6), (7, 9)] := by
  refine ⟨⟨rfl, rfl⟩, fun paths => mbtAux_length paths 0, ?_,
    fun paths k s path h1 h2 => mbtAux_get_high paths 0 k s path h1 h2,
    fun paths k s s2 h1 h2 => mbtAux_get_succ_low paths 0 k s s2 h1 h2, by decide⟩
  intro p ps
  rw [make_bound_tuples, mbtAux_get_zero]
  norm_num

/-- C8 witness: consecutive spans of the [4, 3, 3] shape chain as
low_(k+1) = high_k + 1. -/
theorem C8_witness : ((4:ℤ), (6:ℤ)).1 = ((0:ℤ), (3:ℤ)).2 + 1 :=
  C8_bound_tuples.2.2.2.2.1
    [List.replicate 4 (((0:ℚ), 0, 0) : Point), List.replicate 3 (((0:ℚ), 0, 0) : Point),
     List.replicate 3 (((0:ℚ), 0, 0) : Point)] 0 (0, 3) (4, 6) (by decide) (by decide)

/-! ### Claim C9 -/

/-- C9: normalization is idempotent on canonical (non-negative cross
product) triangles: the constructor leaves the index triple unchanged and
rebuilding a Triangle from the result reproduces it exactly, edge flags
included. -/
theorem C9_idempotent {tri : ℤ × ℤ × ℤ} {bounds : List (ℤ × ℤ)} {flat : List Point}
    {c : ℚ} (h : crossAt flat tri = some c) (hc : 0 ≤ c) :
    ∃ T, mkTriangle tri bounds flat = some T ∧ T.points = tri ∧
      mkTriangle T.points bounds flat = some T := by
  obtain ⟨P0, P1, P2, h0, h1, h2, rfl⟩ := crossAt_inv h
  by_cases hdeg : |cross (vec P0 P1) (vec P0 P2)| < 1/10000
  · refine ⟨_, by rw [mkTriangle_of_lookups h0 h1 h2, if_pos hdeg], rfl, ?_⟩
    show mkTriangle tri bounds flat = _
    rw [mkTriangle_of_lookups h0 h1 h2, if_pos hdeg]
  · refine ⟨_, by rw [mkTriangle_of_lookups h0 h1 h2, if_neg hdeg, if_neg (not_lt.mpr hc)],
      rfl, ?_⟩
    show mkTriangle tri bounds flat = _
    rw [mkTriangle_of_lookups h0 h1 h2, if_neg hdeg, if_neg (not_lt.mpr hc)]

/-- C9 witness: a concrete counter-clockwise triangle is left unchanged by
a second normalization. -/
theorem C9_witness :
    ∃ T, mkTriangle (0, 1, 2) [(0, 2)]
        [(((0:ℚ), 0, 0) : Point), ((1:ℚ), 0, 0), ((0:ℚ), 1, 0)] = some T ∧
      T.points = (0, 1, 2) ∧
      mkTriangle T.points [(0, 2)]
        [(((0:ℚ), 0, 0) : Point), ((1:ℚ), 0, 0), ((0:ℚ), 1, 0)] = some T :=
  @C9_idempotent (0, 1, 2) [(0, 2)]
    [(((0:ℚ), 0, 0) : Point), ((1:ℚ), 0, 0), ((0:ℚ), 1, 0)] 1
    (by simp [crossAt, pyGet, vec, cross]) (by norm_num)

/-! ### Claim C10 -/

/-- C10: boundary classification is symmetric in its two index arguments,
and for a span of a length-1 path (low = high) the self-edge at that index
is classified as a boundary edge without raising. -/
theorem C10_symmetry_and_self_edge :
    (∀ (a b : ℤ) (bounds : List (ℤ × ℤ)), is_edge a b bounds = is_edge b a bounds) ∧
    (∀ (paths : List (List Point)) (k : ℕ) (p : List Point) (v h : ℤ),
      paths.get? k = some p → p.length = 1 →
      (make_bound_tuples paths).get? k = some (v, h) →
      h = v ∧ is_edge v v (make_bound_tuples paths) = true) := by
  constructor
  · exact is_edge_comm
  · intro paths k p v h hp hlen hs
    have hhv : h = v := by
      have := mbtAux_get_high paths 0 k (v, h) p hs hp
      simp only [hlen] at this
      simpa using this
    subst hhv
    refine ⟨rfl, is_edge_mbt_iff.mpr ⟨(h, h), List.get?_mem hs, ?_, Or.inr (by simp)⟩⟩
    exact ⟨le_refl h, le_refl h, le_refl h, le_refl h⟩

/-- C10 witness: a concrete instance of both parts. -/
theorem C10_witness :
    is_edge 5 9 [(2, 11)] = is_edge 9 5 [(2, 11)] ∧
    ((0:ℤ) = 0 ∧ is_edge 0 0 (make_bound_tuples [[(((0:ℚ), 0, 0) : Point)]]) = true) :=
  ⟨C10_symmetry_and_self_edge.1 5 9 [(2, 11)],
   C10_symmetry_and_self_edge.2 [[(((0:ℚ), 0, 0) : Point)]] 0 [((0:ℚ), 0, 0)] 0 0
     rfl rfl (by decide)⟩

end Tess
